import Mathlib

/-!
Verification of the Nine-Grid-Slicing-Tool (`src/App.tsx`, `src/types.ts`) against
its natural-language specification.  The React component's pure logic is embedded
shallowly: machine `number`s carrying times/fractions become `ℚ`, pixel
coordinates become `ℕ`, DOM/media handles become opaque identifiers, and the
stateful handlers become explicit state-passing functions.  Asynchronous slice
production is abstracted by an outcome function `produce : ℕ → Except SliceError
SliceResult`, and the seek-completion events of the video element by an oracle
`seekOk : ℚ → Bool`.
-/

namespace NineGrid

/-- `AppMode` from `src/types.ts`. -/
inductive AppMode
  | VIDEO
  | IMAGE
deriving DecidableEq

/-- `SliceSettings` from `src/types.ts`; the TS `number` fields are embedded as `ℚ`. -/
structure SliceSettings where
  startTime : ℚ
  endTime : ℚ
  fps : ℚ
  quality : ℚ
deriving DecidableEq

/-- `SliceResult` from `src/types.ts`: the blob and its object URL are opaque ids. -/
structure SliceResult where
  blob : ℕ
  url : ℕ
deriving DecidableEq

/-- A user-selected `File`: its MIME `type` string, and an id standing for the
object URL `URL.createObjectURL` would assign to it. -/
structure FileInfo where
  type : String
  id : ℕ
deriving DecidableEq

/-- The `mediaInfo` state `{duration, width, height}` of `App.tsx`. -/
structure MediaInfo where
  duration : ℚ
  width : ℕ
  height : ℕ
deriving DecidableEq

/-- The error causes that can be thrown inside `handleProcess`'s try block. -/
inductive SliceError
  | gifNotReady
  | seekTimeout
  | noMediaSource
deriving DecidableEq

/-- The `err.message` string for each error, as written in `App.tsx`. -/
def SliceError.message : SliceError → String
  | gifNotReady => "GIF 引擎未就绪"
  | seekTimeout => "视频定位超时"
  | noMediaSource => "未发现媒体源"

/-- The values taken by the `status` state of `App.tsx` during and after a run. -/
inductive Status
  | empty
  | processing (i : ℕ)
  | done
  | failed (e : SliceError)
deriving DecidableEq

/-- The status string rendered for each `Status` value, as written in `App.tsx`. -/
def statusMessage : Status → String
  | Status.empty => ""
  | Status.processing i => "正在处理第 " ++ toString (i + 1) ++ " / 9 个切片..."
  | Status.done => "所有切片制作完成！"
  | Status.failed e => "制作失败: " ++ e.message

/-- The component state of `App.tsx` relevant to the claims. -/
structure AppState where
  file : Option FileInfo
  previewUrl : Option ℕ
  mode : AppMode
  mediaInfo : MediaInfo
  settings : SliceSettings
  isProcessing : Bool
  progress : ℚ
  status : Status
  results : List (Option SliceResult)
  workerBlobUrl : Option ℕ
deriving DecidableEq

/-! ## Geometry Partitioner (`handleProcess`, the grid arithmetic)

`chunkW = Math.floor(width / 3)`, `chunkH = Math.floor(height / 3)`, and for
slice `i`: `row = Math.floor(i / 3)`, `col = i % 3`, `sx = col * chunkW`,
`sy = row * chunkH`. -/

/-- One grid region `{x, y, width, height}` in source pixel coordinates. -/
structure Region where
  x : ℕ
  y : ℕ
  width : ℕ
  height : ℕ
deriving DecidableEq

/-- The region for slice index `i`, exactly as computed in the `handleProcess`
loop: `sx = (i % 3) * chunkW`, `sy = (i / 3) * chunkH` with
`chunkW = W / 3`, `chunkH = H / 3` (truncating division). -/
def region (W H i : ℕ) : Region :=
  { x := (i % 3) * (W / 3)
    y := (i / 3) * (H / 3)
    width := W / 3
    height := H / 3 }

/-- The nine regions in row-major order, `i = 0..8`. -/
def regions (W H : ℕ) : List Region :=
  (List.range 9).map (region W H)

/-- The set of pixels covered by a region. -/
def Region.pixels (r : Region) : Finset (ℕ × ℕ) :=
  Finset.Ico r.x (r.x + r.width) ×ˢ Finset.Ico r.y (r.y + r.height)

/-! ## Frame Sampler (`sliceVideoToGif`)

`duration = Math.max(0.1, endTime - startTime)`,
`totalFrames = Math.max(1, Math.floor(duration * fps))`, `step = 1 / fps`,
and the capture loop `for (f = 0; f < totalFrames; f++) { await seekTo(t);
…capture…; t += step; if (t > endTime) break; }`. -/

/-- `Math.max(0.1, endTime - startTime)` from `sliceVideoToGif`. -/
def duration (s : SliceSettings) : ℚ :=
  max (1 / 10) (s.endTime - s.startTime)

/-- `Math.max(1, Math.floor(duration * fps))` from `sliceVideoToGif`. -/
def totalFrames (s : SliceSettings) : ℕ :=
  max 1 (⌊duration s * s.fps⌋).toNat

/-- The capture loop of `sliceVideoToGif` with every seek succeeding: starting at
time `t`, capture, advance by `step`, break once the advanced time exceeds
`endT`, for at most `n` iterations.  Returns the list of capture times. -/
def sampleLoop : ℕ → ℚ → ℚ → ℚ → List ℚ
  | 0, _, _, _ => []
  | n + 1, t, step, endT =>
      t :: (if endT < t + step then [] else sampleLoop n (t + step) step endT)

/-- The capture times produced by the Frame Sampler for settings `s`. -/
def sampleTimes (s : SliceSettings) : List ℚ :=
  sampleLoop (totalFrames s) s.startTime (1 / s.fps) s.endTime

/-- The millisecond bound passed to `setTimeout` in `seekTo`. -/
def seekTimeoutMs : ℕ := 5000

/-- The capture loop of `sliceVideoToGif` with an explicit seek oracle: seeking
to time `t` either completes within the bounded wait (`seekOk t = true`) or the
`setTimeout` fires first and the loop rejects with the seek-timeout error. -/
def captureLoop (seekOk : ℚ → Bool) : ℕ → ℚ → ℚ → ℚ → Except SliceError (List ℚ)
  | 0, _, _, _ => Except.ok []
  | n + 1, t, step, endT =>
      if seekOk t then
        if endT < t + step then Except.ok [t]
        else (captureLoop seekOk n (t + step) step endT).map (fun l => t :: l)
      else Except.error SliceError.seekTimeout

/-- `sliceVideoToGif` as an outcome on capture times: it rejects with
`GIF 引擎未就绪` when `window.GIF` or the worker blob URL is missing, and
otherwise runs the capture loop, whose first timed-out seek rejects the whole
slice. -/
def sliceVideoToGif (gifAvailable : Bool) (workerBlobUrl : Option ℕ)
    (seekOk : ℚ → Bool) (s : SliceSettings) : Except SliceError (List ℚ) :=
  if gifAvailable = false ∨ workerBlobUrl = none then Except.error SliceError.gifNotReady
  else captureLoop seekOk (totalFrames s) s.startTime (1 / s.fps) s.endTime

/-! ## Pipeline Orchestrator (`handleProcess`) and handlers -/

/-- Everything observable about one run of the `handleProcess` loop:
the final `results` array, the successive values passed to `setResults` after
each completed slice, the successive values passed to `setProgress`, the
indices of the slices whose production was started, and the final status. -/
structure RunOutcome where
  results : List (Option SliceResult)
  trace : List (List (Option SliceResult))
  progressTrace : List ℚ
  attempted : List ℕ
  status : Status
deriving DecidableEq

/-- The `for (i = 0; i < 9; i++)` loop of `handleProcess`, with the per-slice
production (`sliceImage` / `sliceVideoToGif` / the missing-media throw)
abstracted as `produce`.  `n` is the remaining fuel (`9 - i`), `i` the current
index, `res` the current `newResults` array.  A failed slice catches: the loop
stops, `results` keeps its current value, and the status becomes the failure
message. -/
def sliceLoop (produce : ℕ → Except SliceError SliceResult) :
    ℕ → ℕ → List (Option SliceResult) → RunOutcome
  | 0, _, res =>
      { results := res, trace := [], progressTrace := [], attempted := [], status := Status.done }
  | n + 1, i, res =>
      match produce i with
      | Except.error e =>
          { results := res, trace := [], progressTrace := [], attempted := [i],
            status := Status.failed e }
      | Except.ok r =>
          let res' := res.set i (some r)
          let rest := sliceLoop produce n (i + 1) res'
          { results := rest.results
            trace := res' :: rest.trace
            progressTrace := ((i : ℚ) + 1) / 9 * 100 :: rest.progressTrace
            attempted := i :: rest.attempted
            status := rest.status }

/-- `handleProcess`: the guard `if (!file || (mode === VIDEO && !workerBlobUrl))
return;` is a pure no-op; otherwise progress is reset to 0, results to nine
nulls, and the slice loop runs.  Returns the final component state together
with the run outcome (`none` when the guard returned early). -/
def handleProcess (st : AppState) (produce : ℕ → Except SliceError SliceResult) :
    AppState × Option RunOutcome :=
  if st.file = none ∨ (st.mode = AppMode.VIDEO ∧ st.workerBlobUrl = none) then (st, none)
  else
    let out := sliceLoop produce 9 0 (List.replicate 9 none)
    ({ st with
        isProcessing := false
        progress := out.progressTrace.getLastD 0
        status := out.status
        results := out.results }, some out)

/-- Character-level model of `String.prototype.startsWith`, used by
`handleFileChange` for the `image/` MIME-type check. -/
def strStartsWith (s pre : String) : Bool :=
  pre.data.isPrefixOf s.data

/-- `handleFileChange`: with no file selected it returns early; otherwise it
resets results, progress and status, creates a preview URL, stores the file and
picks the mode by `type.startsWith('image/')`. -/
def handleFileChange (st : AppState) (selected : Option FileInfo) : AppState :=
  match selected with
  | none => st
  | some f =>
      { st with
          results := List.replicate 9 none
          progress := 0
          status := Status.empty
          previewUrl := some f.id
          file := some f
          mode := if strStartsWith f.type "image/" then AppMode.IMAGE else AppMode.VIDEO }

/-- `folderName` from `handleDownloadAll`. -/
def folderNameOf (mode : AppMode) : String :=
  if mode = AppMode.IMAGE then "9_grid_images" else "9_grid_gifs"

/-- `ext` from `handleDownloadAll`. -/
def extOf (mode : AppMode) : String :=
  if mode = AppMode.IMAGE then "png" else "gif"

/-- One file entry added to the ZIP: its path inside the folder and its blob. -/
structure ZipFile where
  name : String
  blob : ℕ
deriving DecidableEq

/-- The archive built by `handleDownloadAll`: one top-level folder holding the
added files. -/
structure Archive where
  folderName : String
  files : List ZipFile
deriving DecidableEq

/-- `handleDownloadAll`: `if (results.some(r => r === null)) return;` guards the
packager; otherwise each non-null result `i` is added as
`slice_${i+1}.${ext}` inside the mode-named folder. -/
def handleDownloadAll (mode : AppMode) (results : List (Option SliceResult)) :
    Option Archive :=
  if results.any (fun r => r.isNone) then none
  else some
    { folderName := folderNameOf mode
      files := results.enum.filterMap fun p =>
        p.2.map fun res => { name := "slice_" ++ toString (p.1 + 1) ++ "." ++ extOf mode
                             blob := res.blob } }

/-! ## Concrete values used by witnesses and counterexamples -/

/-- A placeholder successful slice result. -/
def okRes : SliceResult := { blob := 0, url := 0 }

/-- A producer for which every slice succeeds. -/
def allOk : ℕ → Except SliceError SliceResult := fun _ => Except.ok okRes

/-- The value of `(produce j)` when it succeeded, a default otherwise. -/
def okValue (x : Except SliceError SliceResult) : SliceResult :=
  (x.toOption).getD okRes

/-- The `results` array after the first `m` slices have completed with results
`r 0, …, r (m-1)`: slots `0..m-1` filled, the rest still null. -/
def filledUpTo (r : ℕ → SliceResult) (m : ℕ) : List (Option SliceResult) :=
  (List.range 9).map fun j => if j < m then some (r j) else none

/-- A fresh component state, as after mount. -/
def initState : AppState :=
  { file := none
    previewUrl := none
    mode := AppMode.VIDEO
    mediaInfo := { duration := 0, width := 0, height := 0 }
    settings := { startTime := 0, endTime := 6, fps := 10, quality := 10 }
    isProcessing := false
    progress := 0
    status := Status.empty
    results := List.replicate 9 none
    workerBlobUrl := none }

/-- A state ready to process an image: a file is selected and mode is IMAGE. -/
def readyImageState : AppState :=
  { initState with
      file := some { type := "image/png", id := 0 }
      previewUrl := some 0
      mode := AppMode.IMAGE
      mediaInfo := { duration := 0, width := 300, height := 300 } }

/-- A state ready to process a video: a file is selected, mode is VIDEO and the
GIF worker blob URL is ready. -/
def readyVideoState : AppState :=
  { initState with
      file := some { type := "video/mp4", id := 1 }
      previewUrl := some 1
      mode := AppMode.VIDEO
      mediaInfo := { duration := 6, width := 300, height := 300 }
      workerBlobUrl := some 0 }

/-- A file of an unsupported content type. -/
def plainFile : FileInfo := { type := "text/plain", id := 7 }

/-- The settings of the spec's video-mode test vector. -/
def testSettings : SliceSettings :=
  { startTime := 0, endTime := 1, fps := 10, quality := 10 }

/-- The spec's short-window test vector: `endTime = 0.05`. -/
def shortSettings : SliceSettings :=
  { startTime := 0, endTime := 1 / 20, fps := 10, quality := 10 }

/-! ## Geometry lemmas -/

theorem card_pixels (r : Region) : r.pixels.card = r.width * r.height := by
  simp [Region.pixels, Finset.card_product, Nat.card_Ico]

theorem mem_pixels {r : Region} {p : ℕ × ℕ} :
    p ∈ r.pixels ↔
      (r.x ≤ p.1 ∧ p.1 < r.x + r.width) ∧ (r.y ≤ p.2 ∧ p.2 < r.y + r.height) := by
  simp [Region.pixels, Finset.mem_product, Finset.mem_Ico]

/-- A point lies in at most one of the half-open intervals `[c*w, c*w + w)`. -/
theorem grid_interval_eq {w c c' a : ℕ} (h1 : c * w ≤ a) (h2 : a < c * w + w)
    (h3 : c' * w ≤ a) (h4 : a < c' * w + w) : c = c' := by
  rcases Nat.lt_trichotomy c c' with h | h | h
  · exfalso
    have hm : (c + 1) * w ≤ c' * w := Nat.mul_le_mul_right w h
    rw [Nat.succ_mul] at hm
    omega
  · exact h
  · exfalso
    have hm : (c' + 1) * w ≤ c * w := Nat.mul_le_mul_right w h
    rw [Nat.succ_mul] at hm
    omega

theorem region_pixels_disjoint {W H : ℕ} {i j : ℕ}
    (hij : i ≠ j) : Disjoint (region W H i).pixels (region W H j).pixels := by
  rw [Finset.disjoint_left]
  intro p hp hq
  rw [mem_pixels] at hp hq
  simp only [region] at hp hq
  obtain ⟨⟨hp1, hp2⟩, hp3, hp4⟩ := hp
  obtain ⟨⟨hq1, hq2⟩, hq3, hq4⟩ := hq
  have hcol : i % 3 = j % 3 := grid_interval_eq hp1 hp2 hq1 hq2
  have hrow : i / 3 = j / 3 := grid_interval_eq hp3 hp4 hq3 hq4
  omega

theorem regions_biUnion_card (W H : ℕ) :
    ((Finset.range 9).biUnion fun i => (region W H i).pixels).card =
      9 * (W / 3) * (H / 3) := by
  rw [Finset.card_biUnion]
  · simp only [card_pixels, region, Finset.sum_const, Finset.card_range, smul_eq_mul]
    ring
  · intro i hi j hj hij
    exact region_pixels_disjoint hij

/-! ## Frame-sampler lemmas -/

theorem sampleLoop_length_le (n : ℕ) (t step endT : ℚ) :
    (sampleLoop n t step endT).length ≤ n := by
  induction n generalizing t with
  | zero => simp [sampleLoop]
  | succ n ih =>
    rw [sampleLoop]
    split
    · simp
    · simpa using ih (t + step)

theorem sampleLoop_getElem (n : ℕ) (t step endT : ℚ) (k : ℕ) (x : ℚ)
    (h : (sampleLoop n t step endT)[k]? = some x) : x = t + k * step := by
  induction n generalizing t k with
  | zero => simp [sampleLoop] at h
  | succ n ih =>
    rw [sampleLoop] at h
    cases k with
    | zero =>
      rw [List.getElem?_cons_zero, Option.some_inj] at h
      simp [← h]
    | succ k =>
      rw [List.getElem?_cons_succ] at h
      split at h
      · simp at h
      · have hx := ih (t + step) k h
        rw [hx]
        push_cast
        ring

theorem sampleLoop_next_le (n : ℕ) (t step endT : ℚ) (k : ℕ)
    (h : k + 1 < (sampleLoop n t step endT).length) : t + (k + 1) * step ≤ endT := by
  induction n generalizing t k with
  | zero => simp [sampleLoop] at h
  | succ n ih =>
    rw [sampleLoop] at h
    by_cases hb : endT < t + step
    · rw [if_pos hb] at h
      simp at h
    · rw [if_neg hb] at h
      simp only [List.length_cons, Nat.add_lt_add_iff_right] at h
      cases k with
      | zero =>
        push_neg at hb
        simpa using hb
      | succ k =>
        have hrec := ih (t + step) k (by omega)
        calc t + ((k + 1 : ℕ) + 1 : ℚ) * step
            = (t + step) + ((k : ℚ) + 1) * step := by push_cast; ring
          _ ≤ endT := hrec

theorem sampleLoop_ne_nil (n : ℕ) (t step endT : ℚ) (hn : 0 < n) :
    (sampleLoop n t step endT) ≠ [] := by
  cases n with
  | zero => omega
  | succ n =>
    rw [sampleLoop]
    simp

/-! ## ResultSet helper lemmas -/

theorem filledUpTo_length (r : ℕ → SliceResult) (m : ℕ) :
    (filledUpTo r m).length = 9 := by
  simp [filledUpTo]

theorem filledUpTo_getElem (r : ℕ → SliceResult) (m j : ℕ) :
    (filledUpTo r m)[j]? =
      if j < 9 then some (if j < m then some (r j) else none) else none := by
  rw [filledUpTo, List.getElem?_map]
  by_cases hj : j < 9
  · rw [List.getElem?_range hj, if_pos hj]
    rfl
  · rw [List.getElem?_eq_none (by simpa using Nat.le_of_not_lt hj), if_neg hj]
    rfl

theorem filledUpTo_zero (r : ℕ → SliceResult) :
    filledUpTo r 0 = List.replicate 9 none := by
  apply List.ext_getElem?
  intro j
  rw [filledUpTo_getElem]
  by_cases hj : j < 9
  · rw [if_pos hj, List.getElem?_replicate, if_pos hj]
    rfl
  · rw [if_neg hj, List.getElem?_replicate, if_neg hj]

theorem filledUpTo_set (r : ℕ → SliceResult) (m : ℕ) (hm : m < 9) :
    (filledUpTo r m).set m (some (r m)) = filledUpTo r (m + 1) := by
  apply List.ext_getElem?
  intro j
  rw [List.getElem?_set, filledUpTo_length]
  rcases eq_or_ne m j with rfl | hne
  · rw [if_pos rfl, if_pos hm, filledUpTo_getElem, if_pos hm, if_pos (Nat.lt_succ_self m)]
  · rw [if_neg hne, filledUpTo_getElem, filledUpTo_getElem]
    have hiff : j < m ↔ j < m + 1 := by omega
    simp [hiff]

/-! ## sliceLoop characterization

`sliceLoop produce n i res` is always entered (from `handleProcess`) with
`i + n = 9` and `res = filledUpTo r i` for the function `r` of already-produced
results.  The two lemmas below describe the run in the two possible cases:
no failure in `[i, 9)`, and first failure at offset `k`. -/

theorem sliceLoop_ok_spec (produce : ℕ → Except SliceError SliceResult)
    (r : ℕ → SliceResult) :
    ∀ (n i : ℕ), i + n = 9 →
    (∀ j, i ≤ j → j < 9 → produce j = Except.ok (r j)) →
    (sliceLoop produce n i (filledUpTo r i)).results = filledUpTo r 9 ∧
    (sliceLoop produce n i (filledUpTo r i)).status = Status.done ∧
    (∀ k, (sliceLoop produce n i (filledUpTo r i)).trace[k]? =
      if k < n then some (filledUpTo r (i + k + 1)) else none) ∧
    (∀ k, (sliceLoop produce n i (filledUpTo r i)).progressTrace[k]? =
      if k < n then some (((i + k : ℕ) + 1 : ℚ) / 9 * 100) else none) ∧
    (∀ k, (sliceLoop produce n i (filledUpTo r i)).attempted[k]? =
      if k < n then some (i + k) else none) := by
  intro n
  induction n with
  | zero =>
    intro i hi _
    have h9 : i = 9 := by omega
    subst h9
    refine ⟨?_, ?_, ?_, ?_, ?_⟩ <;> simp [sliceLoop]
  | succ n ih =>
    intro i hi hok
    have hi9 : i < 9 := by omega
    have hprod : produce i = Except.ok (r i) := hok i le_rfl hi9
    obtain ⟨h1, h2, h3, h4, h5⟩ :=
      ih (i + 1) (by omega) (fun j hj1 hj2 => hok j (by omega) hj2)
    simp only [sliceLoop, hprod, filledUpTo_set r i hi9]
    refine ⟨h1, h2, ?_, ?_, ?_⟩
    · intro k
      cases k with
      | zero => simp
      | succ k =>
        rw [List.getElem?_cons_succ, h3 k]
        have hsh : i + 1 + k = i + (k + 1) := by omega
        rw [hsh]
        by_cases hk : k < n
        · rw [if_pos hk, if_pos (by omega)]
        · rw [if_neg hk, if_neg (by omega)]
    · intro k
      cases k with
      | zero => simp
      | succ k =>
        rw [List.getElem?_cons_succ, h4 k]
        have hsh : i + 1 + k = i + (k + 1) := by omega
        rw [hsh]
        by_cases hk : k < n
        · rw [if_pos hk, if_pos (by omega)]
        · rw [if_neg hk, if_neg (by omega)]
    · intro k
      cases k with
      | zero => simp
      | succ k =>
        rw [List.getElem?_cons_succ, h5 k]
        have hsh : i + 1 + k = i + (k + 1) := by omega
        rw [hsh]
        by_cases hk : k < n
        · rw [if_pos hk, if_pos (by omega)]
        · rw [if_neg hk, if_neg (by omega)]

theorem sliceLoop_fail_spec (produce : ℕ → Except SliceError SliceResult)
    (r : ℕ → SliceResult) (e : SliceError) :
    ∀ (k n i : ℕ), i + n = 9 → k < n →
    (∀ j, i ≤ j → j < i + k → produce j = Except.ok (r j)) →
    produce (i + k) = Except.error e →
    (sliceLoop produce n i (filledUpTo r i)).results = filledUpTo r (i + k) ∧
    (sliceLoop produce n i (filledUpTo r i)).status = Status.failed e ∧
    (∀ m, (sliceLoop produce n i (filledUpTo r i)).trace[m]? =
      if m < k then some (filledUpTo r (i + m + 1)) else none) ∧
    (∀ m, (sliceLoop produce n i (filledUpTo r i)).progressTrace[m]? =
      if m < k then some (((i + m : ℕ) + 1 : ℚ) / 9 * 100) else none) ∧
    (∀ m, (sliceLoop produce n i (filledUpTo r i)).attempted[m]? =
      if m < k + 1 then some (i + m) else none) := by
  intro k
  induction k with
  | zero =>
    intro n i hi hk hok hfail
    obtain ⟨n, rfl⟩ : ∃ m, n = m + 1 := ⟨n - 1, by omega⟩
    rw [Nat.add_zero] at hfail
    simp only [sliceLoop, hfail]
    refine ⟨by simp, by trivial, ?_, ?_, ?_⟩ <;> intro m <;> cases m <;> simp
  | succ k ih =>
    intro n i hi hk hok hfail
    obtain ⟨n, rfl⟩ : ∃ m, n = m + 1 := ⟨n - 1, by omega⟩
    have hi9 : i < 9 := by omega
    have hprod : produce i = Except.ok (r i) := hok i le_rfl (by omega)
    have hsh0 : i + 1 + k = i + (k + 1) := by omega
    obtain ⟨h1, h2, h3, h4, h5⟩ :=
      ih n (i + 1) (by omega) (by omega)
        (fun j hj1 hj2 => hok j (by omega) (by omega))
        (by rw [hsh0]; exact hfail)
    simp only [sliceLoop, hprod, filledUpTo_set r i hi9]
    rw [hsh0] at h1
    refine ⟨h1, h2, ?_, ?_, ?_⟩
    · intro m
      cases m with
      | zero => simp
      | succ m =>
        rw [List.getElem?_cons_succ, h3 m]
        have hsh : i + 1 + m = i + (m + 1) := by omega
        rw [hsh]
        by_cases hm : m < k
        · rw [if_pos hm, if_pos (by omega)]
        · rw [if_neg hm, if_neg (by omega)]
    · intro m
      cases m with
      | zero => simp
      | succ m =>
        rw [List.getElem?_cons_succ, h4 m]
        have hsh : i + 1 + m = i + (m + 1) := by omega
        rw [hsh]
        by_cases hm : m < k
        · rw [if_pos hm, if_pos (by omega)]
        · rw [if_neg hm, if_neg (by omega)]
    · intro m
      cases m with
      | zero => simp
      | succ m =>
        rw [List.getElem?_cons_succ, h5 m]
        have hsh : i + 1 + m = i + (m + 1) := by omega
        rw [hsh]
        by_cases hm : m < k + 1
        · rw [if_pos hm, if_pos (by omega)]
        · rw [if_neg hm, if_neg (by omega)]

/-- When the guard passes, `handleProcess` runs the loop on a fresh all-null
`results` array and publishes the outcome into the final state. -/
theorem handleProcess_run (st : AppState) (produce : ℕ → Except SliceError SliceResult)
    (h1 : st.file ≠ none) (h2 : st.mode = AppMode.VIDEO → st.workerBlobUrl ≠ none) :
    handleProcess st produce =
      ({ st with
          isProcessing := false
          progress := (sliceLoop produce 9 0 (List.replicate 9 none)).progressTrace.getLastD 0
          status := (sliceLoop produce 9 0 (List.replicate 9 none)).status
          results := (sliceLoop produce 9 0 (List.replicate 9 none)).results },
        some (sliceLoop produce 9 0 (List.replicate 9 none))) := by
  have hng : ¬(st.file = none ∨ (st.mode = AppMode.VIDEO ∧ st.workerBlobUrl = none)) := by
    rintro (h | ⟨hm, hw⟩)
    · exact h1 h
    · exact h2 hm hw
  rw [handleProcess, if_neg hng]

theorem except_ok_of_isOk {x : Except SliceError SliceResult} (h : x.isOk = true) :
    x = Except.ok (okValue x) := by
  cases x with
  | ok v => rfl
  | error e => simp [Except.isOk, Except.toBool] at h

/-- Every top-level run of the loop leaves `results` in prefix-filled shape:
some `m ≤ 9` slices completed, slots `0..m-1` holding their results, and each
intermediate `setResults` value `k` equal to the prefix fill of `k + 1`. -/
theorem sliceLoop_top_shape (produce : ℕ → Except SliceError SliceResult) :
    ∃ (r : ℕ → SliceResult) (m : ℕ), m ≤ 9 ∧
      (sliceLoop produce 9 0 (List.replicate 9 none)).results = filledUpTo r m ∧
      (∀ k, (sliceLoop produce 9 0 (List.replicate 9 none)).trace[k]? =
        if k < m then some (filledUpTo r (k + 1)) else none) := by
  set r : ℕ → SliceResult := fun j => okValue (produce j) with hr
  rw [← filledUpTo_zero r]
  by_cases hall : ∀ j, j < 9 → (produce j).isOk = true
  · obtain ⟨h1, _, h3, _, _⟩ := sliceLoop_ok_spec produce r 9 0 rfl
      (fun j _ hj2 => except_ok_of_isOk (hall j hj2))
    refine ⟨r, 9, le_rfl, h1, fun k => ?_⟩
    rw [h3 k]
    by_cases hk : k < 9
    · rw [if_pos hk, if_pos hk]
      norm_num
    · rw [if_neg hk, if_neg hk]
  · push_neg at hall
    obtain ⟨j0, hj0, hbad⟩ := hall
    have hex : ∃ j, (produce j).isOk = false := ⟨j0, by simpa using hbad⟩
    set k := Nat.find hex with hk
    have hkbad : (produce k).isOk = false := Nat.find_spec hex
    have hk9 : k < 9 := by
      have : k ≤ j0 := Nat.find_min' hex (by simpa using hbad)
      omega
    have hkok : ∀ j, j < k → produce j = Except.ok (r j) := by
      intro j hj
      have : ¬ (produce j).isOk = false := Nat.find_min hex hj
      exact except_ok_of_isOk (by simpa using this)
    obtain ⟨e, he⟩ : ∃ e, produce k = Except.error e := by
      cases hpk : produce k with
      | ok v => rw [hpk] at hkbad; simp [Except.isOk, Except.toBool] at hkbad
      | error e => exact ⟨e, rfl⟩
    obtain ⟨h1, _, h3, _, _⟩ := sliceLoop_fail_spec produce r e k 9 0 rfl hk9
      (fun j _ hj2 => hkok j (by omega)) (by simpa using he)
    refine ⟨r, k, by omega, by simpa using h1, fun m => ?_⟩
    rw [h3 m]
    by_cases hm : m < k
    · rw [if_pos hm, if_pos hm]
      norm_num
    · rw [if_neg hm, if_neg hm]

/-! ## Claim C1 -/

/-- C1: for every source width `W ≥ 3` and height `H ≥ 3`, the Geometry
Partitioner produces exactly 9 regions in row-major order, region `i` having
`row = i / 3`, `col = i % 3`, `width = ⌊W/3⌋`, `height = ⌊H/3⌋`,
`x = col * width`, `y = row * height`; the regions are pairwise disjoint and
the union of their pixel sets has cardinality `9 * ⌊W/3⌋ * ⌊H/3⌋`. -/
theorem geometry_partitioner_correct (W H : ℕ) (_hW : 3 ≤ W) (_hH : 3 ≤ H) :
    (regions W H).length = 9 ∧
    (∀ i, i < 9 → (regions W H)[i]? = some
      { x := (i % 3) * (W / 3), y := (i / 3) * (H / 3),
        width := W / 3, height := H / 3 }) ∧
    (∀ i j, i < 9 → j < 9 → i ≠ j →
      Disjoint (region W H i).pixels (region W H j).pixels) ∧
    ((Finset.range 9).biUnion fun i => (region W H i).pixels).card =
      9 * (W / 3) * (H / 3) := by
  refine ⟨by simp [regions], fun i hi => ?_, fun i j _ _ hij => region_pixels_disjoint hij,
    regions_biUnion_card W H⟩
  rw [regions, List.getElem?_map, List.getElem?_range hi]
  rfl

/-- Witness for C1 at `W = 4`, `H = 5`. -/
theorem geometry_partitioner_correct_witness :
    (regions 4 5).length = 9 ∧
    (∀ i, i < 9 → (regions 4 5)[i]? = some
      { x := (i % 3) * (4 / 3), y := (i / 3) * (5 / 3),
        width := 4 / 3, height := 5 / 3 }) ∧
    (∀ i j, i < 9 → j < 9 → i ≠ j →
      Disjoint (region 4 5 i).pixels (region 4 5 j).pixels) ∧
    ((Finset.range 9).biUnion fun i => (region 4 5 i).pixels).card =
      9 * (4 / 3) * (5 / 3) :=
  geometry_partitioner_correct 4 5 (by norm_num) (by norm_num)

/-! ## Claim C2 -/

/-- C2: with `startTime ≥ 0`, `endTime > startTime` and a positive integer
`fps`, the Frame Sampler captures at times `startTime + k / fps`, performs at
most `max 1 ⌊max (1/10) (endTime - startTime) * fps⌋` captures
(`totalFrames`), stops once the next time would exceed `endTime`, and on the
spec's test vectors yields exactly the ten times `0, 0.1, …, 0.9`
(for `endTime = 1`, `fps = 10`) and at least one frame (for `endTime = 0.05`). -/
theorem frame_sampler_correct (s : SliceSettings) (n : ℕ)
    (_h0 : 0 ≤ s.startTime) (_h1 : s.startTime < s.endTime)
    (_hn : 0 < n) (_hfps : s.fps = (n : ℚ)) :
    (∀ (k : ℕ) (x : ℚ), (sampleTimes s)[k]? = some x →
      x = s.startTime + (k : ℚ) * (1 / s.fps)) ∧
    (sampleTimes s).length ≤ totalFrames s ∧
    (∀ k : ℕ, k + 1 < (sampleTimes s).length →
      s.startTime + ((k : ℚ) + 1) * (1 / s.fps) ≤ s.endTime) ∧
    sampleTimes testSettings =
      [0, 1/10, 2/10, 3/10, 4/10, 5/10, 6/10, 7/10, 8/10, 9/10] ∧
    1 ≤ (sampleTimes shortSettings).length := by
  refine ⟨fun k x h => sampleLoop_getElem _ _ _ _ _ _ h,
    sampleLoop_length_le _ _ _ _,
    fun k h => sampleLoop_next_le _ _ _ _ _ h, ?_, ?_⟩
  · norm_num [sampleTimes, sampleLoop, totalFrames, duration, testSettings]
  · norm_num [sampleTimes, sampleLoop, totalFrames, duration, shortSettings]

/-- Witness for C2 at the spec's test settings (`fps = 10`). -/
theorem frame_sampler_correct_witness :
    (∀ (k : ℕ) (x : ℚ), (sampleTimes testSettings)[k]? = some x →
      x = testSettings.startTime + (k : ℚ) * (1 / testSettings.fps)) ∧
    (sampleTimes testSettings).length ≤ totalFrames testSettings ∧
    (∀ k : ℕ, k + 1 < (sampleTimes testSettings).length →
      testSettings.startTime + ((k : ℚ) + 1) * (1 / testSettings.fps) ≤ testSettings.endTime) ∧
    sampleTimes testSettings =
      [0, 1/10, 2/10, 3/10, 4/10, 5/10, 6/10, 7/10, 8/10, 9/10] ∧
    1 ≤ (sampleTimes shortSettings).length :=
  frame_sampler_correct testSettings 10 (by norm_num [testSettings])
    (by norm_num [testSettings]) (by norm_num) (by norm_num [testSettings])

/-! ## Claim C3 -/

/-- Shared abort characterization: a first failure at slice `k` stops the run
with the failed status, a prefix-filled `results` array and no archive. -/
theorem run_aborts (st : AppState)
    (produce : ℕ → Except SliceError SliceResult) (r : ℕ → SliceResult)
    (e : SliceError) (k : ℕ)
    (hfile : st.file ≠ none)
    (hworker : st.mode = AppMode.VIDEO → st.workerBlobUrl ≠ none)
    (hk : k < 9)
    (hok : ∀ j, j < k → produce j = Except.ok (r j))
    (hfail : produce k = Except.error e) :
    (handleProcess st produce).2 = some (sliceLoop produce 9 0 (List.replicate 9 none)) ∧
    (sliceLoop produce 9 0 (List.replicate 9 none)).attempted = List.range (k + 1) ∧
    (handleProcess st produce).1.results = filledUpTo r k ∧
    (∀ j, k ≤ j → j < 9 → (handleProcess st produce).1.results[j]? = some none) ∧
    ¬ ((handleProcess st produce).1.results.all fun o => o.isSome) = true ∧
    (handleProcess st produce).1.status = Status.failed e ∧
    statusMessage (Status.failed e) = "制作失败: " ++ e.message ∧
    handleDownloadAll st.mode (handleProcess st produce).1.results = none := by
  have hspec := sliceLoop_fail_spec produce r e k 9 0 rfl hk
    (fun j _ hj2 => hok j (by omega)) (by simpa using hfail)
  rw [filledUpTo_zero r] at hspec
  obtain ⟨h1, h2, _, _, h5⟩ := hspec
  rw [Nat.zero_add] at h1
  rw [handleProcess_run st produce hfile hworker]
  have hknone : (filledUpTo r k)[k]? = some none := by
    rw [filledUpTo_getElem, if_pos hk, if_neg (by omega)]
  have hmem : (none : Option SliceResult) ∈ filledUpTo r k := List.getElem?_mem hknone
  refine ⟨rfl, ?_, h1, ?_, ?_, h2, rfl, ?_⟩
  · apply List.ext_getElem?
    intro m
    rw [h5 m]
    by_cases hm : m < k + 1
    · rw [if_pos hm, List.getElem?_range hm, Nat.zero_add]
    · rw [if_neg hm, List.getElem?_eq_none (by simpa using Nat.le_of_not_lt hm)]
  · intro j hj1 hj2
    rw [h1, filledUpTo_getElem, if_pos hj2, if_neg (by omega)]
  · rw [h1]
    intro hall
    have := (List.all_eq_true.mp hall) none hmem
    simp at this
  · rw [h1, handleDownloadAll, if_pos]
    rw [List.any_eq_true]
    exact ⟨none, hmem, rfl⟩

/-- C3: if slice `k`'s production fails (all earlier slices having succeeded),
the run aborts immediately: only slices `0..k` were ever started, the
`results` array keeps slots `k..8` empty (non-complete), the failure cause is
reported in the status message, and `handleDownloadAll` refuses to build the
archive on the incomplete ResultSet. -/
theorem single_failure_aborts_run (st : AppState)
    (produce : ℕ → Except SliceError SliceResult) (r : ℕ → SliceResult)
    (e : SliceError) (k : ℕ)
    (hfile : st.file ≠ none)
    (hworker : st.mode = AppMode.VIDEO → st.workerBlobUrl ≠ none)
    (hk : k < 9)
    (hok : ∀ j, j < k → produce j = Except.ok (r j))
    (hfail : produce k = Except.error e) :
    (handleProcess st produce).2 = some (sliceLoop produce 9 0 (List.replicate 9 none)) ∧
    (sliceLoop produce 9 0 (List.replicate 9 none)).attempted = List.range (k + 1) ∧
    (handleProcess st produce).1.results = filledUpTo r k ∧
    (∀ j, k ≤ j → j < 9 → (handleProcess st produce).1.results[j]? = some none) ∧
    ¬ ((handleProcess st produce).1.results.all fun o => o.isSome) = true ∧
    (handleProcess st produce).1.status = Status.failed e ∧
    statusMessage (Status.failed e) = "制作失败: " ++ e.message ∧
    handleDownloadAll st.mode (handleProcess st produce).1.results = none :=
  run_aborts st produce r e k hfile hworker hk hok hfail

/-- A producer whose slices `0,1,2` succeed and whose slice `3` throws. -/
def failProduce : ℕ → Except SliceError SliceResult :=
  fun i => if i < 3 then Except.ok okRes else Except.error SliceError.noMediaSource

/-- Witness for C3: the run from a ready image state with `failProduce`. -/
theorem single_failure_aborts_run_witness :
    (handleProcess readyImageState failProduce).2 =
      some (sliceLoop failProduce 9 0 (List.replicate 9 none)) ∧
    (sliceLoop failProduce 9 0 (List.replicate 9 none)).attempted = List.range (3 + 1) ∧
    (handleProcess readyImageState failProduce).1.results =
      filledUpTo (fun _ => okRes) 3 ∧
    (∀ j, 3 ≤ j → j < 9 →
      (handleProcess readyImageState failProduce).1.results[j]? = some none) ∧
    ¬ ((handleProcess readyImageState failProduce).1.results.all fun o => o.isSome) = true ∧
    (handleProcess readyImageState failProduce).1.status =
      Status.failed SliceError.noMediaSource ∧
    statusMessage (Status.failed SliceError.noMediaSource) =
      "制作失败: " ++ SliceError.noMediaSource.message ∧
    handleDownloadAll readyImageState.mode
      (handleProcess readyImageState failProduce).1.results = none :=
  single_failure_aborts_run readyImageState failProduce (fun _ => okRes)
    SliceError.noMediaSource 3
    (by simp [readyImageState, initState])
    (by simp [readyImageState, initState])
    (by norm_num)
    (fun j hj => by simp [failProduce, hj])
    (by simp [failProduce])

/-! ## Claim C4 -/

/-- C4 counterexample: after slice 0 completes, the progress value the code
reports is exactly `(0+1)/9*100 = 100/9`, which is not the integer
`round((0+1)/9*100) = 11` the claim asserts. -/
theorem progress_not_rounded_counterexample :
    ((handleProcess readyImageState allOk).2.map fun o => o.progressTrace[0]?) =
      some (some ((100 : ℚ) / 9)) ∧
    round ((((0 : ℕ) : ℚ) + 1) / 9 * 100) = (11 : ℤ) ∧
    ((100 : ℚ) / 9) ≠ ((11 : ℤ) : ℚ) := by
  refine ⟨?_, ?_, by norm_num⟩
  · rw [handleProcess, if_neg (by simp [readyImageState, initState])]
    norm_num [allOk, sliceLoop]
  · norm_num [round_eq]

/-- Progress updates of an arbitrary top-level run: one update per completed
slice, the `k`-th (0-indexed) being exactly `(k+1)/9*100`, and all nine
present when every slice succeeds. -/
theorem sliceLoop_progress_shape (produce : ℕ → Except SliceError SliceResult) :
    ∃ m, m ≤ 9 ∧
      (∀ k : ℕ, (sliceLoop produce 9 0 (List.replicate 9 none)).progressTrace[k]? =
        if k < m then some (((k : ℚ) + 1) / 9 * 100) else none) ∧
      ((∀ j, j < 9 → (produce j).isOk = true) → m = 9) := by
  set r : ℕ → SliceResult := fun j => okValue (produce j) with hr
  by_cases hall : ∀ j, j < 9 → (produce j).isOk = true
  · have hspec := sliceLoop_ok_spec produce r 9 0 rfl
      (fun j _ hj2 => except_ok_of_isOk (hall j hj2))
    rw [filledUpTo_zero r] at hspec
    obtain ⟨_, _, _, h4, _⟩ := hspec
    refine ⟨9, le_rfl, fun k => ?_, fun _ => rfl⟩
    rw [h4 k]
    by_cases hk : k < 9
    · rw [if_pos hk, if_pos hk]
      norm_num
    · rw [if_neg hk, if_neg hk]
  · push_neg at hall
    obtain ⟨j0, hj0, hbadj⟩ := hall
    have hex : ∃ j, (produce j).isOk = false := ⟨j0, by simpa using hbadj⟩
    set k0 := Nat.find hex with hk0
    have hkbad : (produce k0).isOk = false := Nat.find_spec hex
    have hk9 : k0 < 9 := by
      have : k0 ≤ j0 := Nat.find_min' hex (by simpa using hbadj)
      omega
    have hkok : ∀ j, j < k0 → produce j = Except.ok (r j) := by
      intro j hj
      have : ¬ (produce j).isOk = false := Nat.find_min hex hj
      exact except_ok_of_isOk (by simpa using this)
    obtain ⟨e, he⟩ : ∃ e, produce k0 = Except.error e := by
      cases hpk : produce k0 with
      | ok v => rw [hpk] at hkbad; simp [Except.isOk, Except.toBool] at hkbad
      | error e => exact ⟨e, rfl⟩
    have hspec := sliceLoop_fail_spec produce r e k0 9 0 rfl hk9
      (fun j _ hj2 => hkok j (by omega)) (by simpa using he)
    rw [filledUpTo_zero r] at hspec
    obtain ⟨_, _, _, h4, _⟩ := hspec
    refine ⟨k0, by omega, fun k => ?_, fun hcon => ?_⟩
    · rw [h4 k]
      by_cases hk : k < k0
      · rw [if_pos hk, if_pos hk]
        norm_num
      · rw [if_neg hk, if_neg hk]
    · have := hcon k0 hk9
      rw [this] at hkbad
      exact Bool.noConfusion hkbad

/-- C4 amended: in every run, progress updates are issued once per completed
slice, the value reported after slice `i` completes (0-indexed) being exactly
`(i+1)/9*100` — the code performs no rounding; the reported values are
monotonically increasing and lie within 0–100, and once all 9 slices succeed
the reported and final progress both equal 100. -/
theorem progress_updates_correct (st : AppState)
    (produce : ℕ → Except SliceError SliceResult)
    (hfile : st.file ≠ none)
    (hworker : st.mode = AppMode.VIDEO → st.workerBlobUrl ≠ none) :
    ∃ m, m ≤ 9 ∧
      (handleProcess st produce).2 = some (sliceLoop produce 9 0 (List.replicate 9 none)) ∧
      (sliceLoop produce 9 0 (List.replicate 9 none)).progressTrace.length = m ∧
      (∀ i : ℕ, (sliceLoop produce 9 0 (List.replicate 9 none)).progressTrace[i]? =
        if i < m then some (((i : ℚ) + 1) / 9 * 100) else none) ∧
      (∀ (i i' : ℕ) (a b : ℚ), i ≤ i' →
        (sliceLoop produce 9 0 (List.replicate 9 none)).progressTrace[i]? = some a →
        (sliceLoop produce 9 0 (List.replicate 9 none)).progressTrace[i']? = some b →
        a ≤ b) ∧
      (∀ q ∈ (sliceLoop produce 9 0 (List.replicate 9 none)).progressTrace,
        0 ≤ q ∧ q ≤ 100) ∧
      ((∀ j, j < 9 → (produce j).isOk = true) →
        (sliceLoop produce 9 0 (List.replicate 9 none)).progressTrace[8]? = some 100 ∧
        (handleProcess st produce).1.progress = 100) := by
  obtain ⟨m, hm9, hpt, hfull⟩ := sliceLoop_progress_shape produce
  have hlen : (sliceLoop produce 9 0 (List.replicate 9 none)).progressTrace.length = m := by
    have hub : (sliceLoop produce 9 0 (List.replicate 9 none)).progressTrace.length ≤ m := by
      by_contra hc
      push_neg at hc
      have h1 := hpt m
      rw [if_neg (by omega), List.getElem?_eq_none_iff] at h1
      omega
    rcases Nat.eq_zero_or_pos m with rfl | hm0
    · omega
    · have h1 := hpt (m - 1)
      rw [if_pos (by omega)] at h1
      by_contra hc
      rw [List.getElem?_eq_none (by omega)] at h1
      exact Option.noConfusion h1
  refine ⟨m, hm9, by rw [handleProcess_run st produce hfile hworker], hlen, hpt, ?_, ?_, ?_⟩
  · intro i i' a b hii ha hb
    have hi'm : i' < m := by
      by_contra hc
      rw [hpt i', if_neg hc] at hb
      exact Option.noConfusion hb
    have him : i < m := by omega
    rw [hpt i, if_pos him, Option.some_inj] at ha
    rw [hpt i', if_pos hi'm, Option.some_inj] at hb
    rw [← ha, ← hb]
    have hc : (i : ℚ) ≤ (i' : ℚ) := by exact_mod_cast hii
    gcongr
  · intro q hq
    obtain ⟨k, hklt, hkeq⟩ := List.getElem_of_mem hq
    have hksome : (sliceLoop produce 9 0 (List.replicate 9 none)).progressTrace[k]? = some q :=
      by rw [List.getElem?_eq_getElem hklt, hkeq]
    have hkm : k < m := by
      by_contra hc
      rw [hpt k, if_neg hc] at hksome
      exact Option.noConfusion hksome
    rw [hpt k, if_pos hkm, Option.some_inj] at hksome
    rw [← hksome]
    have hk8 : (k : ℚ) ≤ 8 := by
      have : k ≤ 8 := by omega
      exact_mod_cast this
    constructor
    · positivity
    · rw [div_mul_eq_mul_div, div_le_iff₀ (by norm_num)]
      linarith
  · intro hall
    have hm := hfull hall
    subst hm
    have hlist : (sliceLoop produce 9 0 (List.replicate 9 none)).progressTrace =
        (List.range 9).map (fun j : ℕ => ((j : ℚ) + 1) / 9 * 100) := by
      apply List.ext_getElem?
      intro i
      rw [hpt i, List.getElem?_map]
      by_cases hi : i < 9
      · rw [if_pos hi, List.getElem?_range hi]
        rfl
      · rw [if_neg hi, List.getElem?_eq_none (by simpa using Nat.le_of_not_lt hi)]
        rfl
    constructor
    · rw [hpt 8, if_pos (by norm_num)]
      norm_num
    · rw [handleProcess_run st produce hfile hworker]
      show (sliceLoop produce 9 0 (List.replicate 9 none)).progressTrace.getLastD 0 = 100
      rw [hlist]
      norm_num [List.range_succ]

/-- Witness for C4 (amended) on an all-successful image run. -/
theorem progress_updates_correct_witness :
    ∃ m, m ≤ 9 ∧
      (handleProcess readyImageState allOk).2 =
        some (sliceLoop allOk 9 0 (List.replicate 9 none)) ∧
      (sliceLoop allOk 9 0 (List.replicate 9 none)).progressTrace.length = m ∧
      (∀ i : ℕ, (sliceLoop allOk 9 0 (List.replicate 9 none)).progressTrace[i]? =
        if i < m then some (((i : ℚ) + 1) / 9 * 100) else none) ∧
      (∀ (i i' : ℕ) (a b : ℚ), i ≤ i' →
        (sliceLoop allOk 9 0 (List.replicate 9 none)).progressTrace[i]? = some a →
        (sliceLoop allOk 9 0 (List.replicate 9 none)).progressTrace[i']? = some b →
        a ≤ b) ∧
      (∀ q ∈ (sliceLoop allOk 9 0 (List.replicate 9 none)).progressTrace,
        0 ≤ q ∧ q ≤ 100) ∧
      ((∀ j, j < 9 → (allOk j).isOk = true) →
        (sliceLoop allOk 9 0 (List.replicate 9 none)).progressTrace[8]? = some 100 ∧
        (handleProcess readyImageState allOk).1.progress = 100) :=
  progress_updates_correct readyImageState allOk
    (by simp [readyImageState, initState])
    (by simp [readyImageState, initState])

/-! ## Claim C8 -/

/-- C8: every run starts from an all-empty 9-slot `results` array, and each
intermediate `setResults` value is a strict prefix fill: the `k`-th published
array (0-indexed) has exactly slots `0..k` non-empty, so slots are written in
strict index order, no filled slot is ever overwritten, and at every point the
filled slots form a prefix of `0..8` (the final array being the prefix of some
`m ≤ 9`). -/
theorem resultset_prefix_invariant (st : AppState)
    (produce : ℕ → Except SliceError SliceResult)
    (hfile : st.file ≠ none)
    (hworker : st.mode = AppMode.VIDEO → st.workerBlobUrl ≠ none) :
    (handleProcess st produce).2 = some (sliceLoop produce 9 0 (List.replicate 9 none)) ∧
    (∀ j, j < 9 → (List.replicate 9 (none : Option SliceResult))[j]? = some none) ∧
    (∀ k l, (sliceLoop produce 9 0 (List.replicate 9 none)).trace[k]? = some l →
      l.length = 9 ∧ ∀ j, j < 9 → ((l[j]?.getD none).isSome = true ↔ j ≤ k)) ∧
    (∃ m, m ≤ 9 ∧ ∀ j, j < 9 →
      ((((sliceLoop produce 9 0 (List.replicate 9 none)).results[j]?).getD none).isSome
        = true ↔ j < m)) := by
  obtain ⟨r, m, hm9, hres, htr⟩ := sliceLoop_top_shape produce
  refine ⟨?_, ?_, ?_, ?_⟩
  · rw [handleProcess_run st produce hfile hworker]
  · intro j hj
    rw [List.getElem?_replicate, if_pos hj]
  · intro k l hl
    rw [htr k] at hl
    by_cases hk : k < m
    · rw [if_pos hk, Option.some_inj] at hl
      subst hl
      refine ⟨filledUpTo_length r (k + 1), fun j hj => ?_⟩
      rw [filledUpTo_getElem, if_pos hj]
      by_cases hjk : j < k + 1
      · rw [if_pos hjk]
        simp [Nat.lt_succ_iff] at hjk ⊢
        exact hjk
      · rw [if_neg hjk]
        simp [Nat.lt_succ_iff] at hjk ⊢
        omega
    · rw [if_neg hk] at hl
      exact Option.noConfusion hl
  · refine ⟨m, hm9, fun j hj => ?_⟩
    rw [hres, filledUpTo_getElem, if_pos hj]
    by_cases hjm : j < m
    · rw [if_pos hjm]
      simpa using hjm
    · rw [if_neg hjm]
      simpa using hjm

/-- Witness for C8 on a ready image state. -/
theorem resultset_prefix_invariant_witness :
    (handleProcess readyImageState allOk).2 =
      some (sliceLoop allOk 9 0 (List.replicate 9 none)) ∧
    (∀ j, j < 9 → (List.replicate 9 (none : Option SliceResult))[j]? = some none) ∧
    (∀ k l, (sliceLoop allOk 9 0 (List.replicate 9 none)).trace[k]? = some l →
      l.length = 9 ∧ ∀ j, j < 9 → ((l[j]?.getD none).isSome = true ↔ j ≤ k)) ∧
    (∃ m, m ≤ 9 ∧ ∀ j, j < 9 →
      ((((sliceLoop allOk 9 0 (List.replicate 9 none)).results[j]?).getD none).isSome
        = true ↔ j < m)) :=
  resultset_prefix_invariant readyImageState allOk
    (by simp [readyImageState, initState])
    (by simp [readyImageState, initState])

/-! ## Claim C10 -/

/-- C10: starting a run with no file selected, or in VIDEO mode before the GIF
worker finished initializing, is a strict no-op: the state (in particular every
result slot and the progress value) is returned unchanged and no slice
production is started (no run outcome exists). -/
theorem guard_blocks_run (st : AppState)
    (produce : ℕ → Except SliceError SliceResult)
    (h : st.file = none ∨ (st.mode = AppMode.VIDEO ∧ st.workerBlobUrl = none)) :
    handleProcess st produce = (st, none) ∧
    (handleProcess st produce).1.results = st.results ∧
    (handleProcess st produce).1.progress = st.progress ∧
    (handleProcess st produce).2 = none := by
  rw [handleProcess, if_pos h]
  exact ⟨rfl, rfl, rfl, rfl⟩

/-- Witness for C10: the fresh state has no file selected. -/
theorem guard_blocks_run_witness :
    handleProcess initState allOk = (initState, none) ∧
    (handleProcess initState allOk).1.results = initState.results ∧
    (handleProcess initState allOk).1.progress = initState.progress ∧
    (handleProcess initState allOk).2 = none :=
  guard_blocks_run initState allOk (Or.inl rfl)

/-! ## Claim C9 -/

/-- C9: selecting a new source file resets the ResultSet to nine empty slots
and the progress value to 0, regardless of the prior state. -/
theorem file_change_resets (st : AppState) (f : FileInfo) :
    (handleFileChange st (some f)).results = List.replicate 9 none ∧
    (handleFileChange st (some f)).progress = 0 :=
  ⟨rfl, rfl⟩

/-! ## Claim C5 -/

/-- C5 counterexample: selecting a `text/plain` file is not rejected and
raises no user-visible error; the handler accepts it, creates a preview,
stores the file and switches to VIDEO mode (the empty status string being the
only thing shown). -/
theorem unsupported_type_not_rejected :
    (handleFileChange initState (some plainFile)).file = some plainFile ∧
    (handleFileChange initState (some plainFile)).previewUrl = some plainFile.id ∧
    (handleFileChange initState (some plainFile)).mode = AppMode.VIDEO ∧
    (handleFileChange initState (some plainFile)).status = Status.empty ∧
    statusMessage (handleFileChange initState (some plainFile)).status = "" := by
  have hsw : strStartsWith plainFile.type "image/" = false := by decide
  refine ⟨rfl, rfl, ?_, rfl, rfl⟩
  simp [handleFileChange, hsw]

/-- C5 amended: a user-supplied file whose content type is not `image/*` is
not rejected at file-selection time: it is accepted and handled in VIDEO mode
(whatever its actual type), with the preview created, the file stored, the
results and progress reset, and no error status raised. -/
theorem non_image_file_goes_video (st : AppState) (f : FileInfo)
    (h : strStartsWith f.type "image/" = false) :
    (handleFileChange st (some f)).mode = AppMode.VIDEO ∧
    (handleFileChange st (some f)).file = some f ∧
    (handleFileChange st (some f)).previewUrl = some f.id ∧
    (handleFileChange st (some f)).status = Status.empty ∧
    (handleFileChange st (some f)).results = List.replicate 9 none ∧
    (handleFileChange st (some f)).progress = 0 := by
  refine ⟨?_, rfl, rfl, rfl, rfl, rfl⟩
  simp [handleFileChange, h]

/-- Witness for C5 (amended) on the `text/plain` file. -/
theorem non_image_file_goes_video_witness :
    (handleFileChange initState (some plainFile)).mode = AppMode.VIDEO ∧
    (handleFileChange initState (some plainFile)).file = some plainFile ∧
    (handleFileChange initState (some plainFile)).previewUrl = some plainFile.id ∧
    (handleFileChange initState (some plainFile)).status = Status.empty ∧
    (handleFileChange initState (some plainFile)).results = List.replicate 9 none ∧
    (handleFileChange initState (some plainFile)).progress = 0 :=
  non_image_file_goes_video initState plainFile (by decide)

/-! ## Claim C7 -/

/-- The ZIP entries built from an all-filled results segment, enumerated from
index `i`, carry exactly the names `slice_<i+1>…slice_<i+len>`. -/
theorem zip_entry_names (ext : String) :
    ∀ (l : List (Option SliceResult)) (i : ℕ), (∀ o ∈ l, o.isSome = true) →
      (((l.enumFrom i).filterMap fun p => p.2.map fun res =>
          ({ name := "slice_" ++ toString (p.1 + 1) ++ "." ++ ext,
             blob := res.blob } : ZipFile)).map fun zf => zf.name) =
        (List.range l.length).map fun j => "slice_" ++ toString (i + j + 1) ++ "." ++ ext := by
  intro l
  induction l with
  | nil =>
    intro i _
    simp
  | cons o l ih =>
    intro i hall
    obtain ⟨r0, rfl⟩ := Option.isSome_iff_exists.mp (hall o (List.mem_cons_self o l))
    have htl : ∀ x ∈ l, x.isSome = true := fun x hx => hall x (List.mem_cons_of_mem _ hx)
    rw [show (some r0 :: l).enumFrom i = (i, some r0) :: l.enumFrom (i + 1) from by
      simp [List.enumFrom]]
    rw [List.filterMap_cons]
    simp only [Option.map_some', List.map_cons, List.length_cons]
    rw [ih (i + 1) htl, List.range_succ_eq_map, List.map_cons, List.map_map]
    congr 1
    apply List.map_congr_left
    intro a _
    simp only [Function.comp_apply, Nat.succ_eq_add_one]
    have harg : i + 1 + a + 1 = i + (a + 1) + 1 := by omega
    rw [harg]

/-- C7: whenever `handleDownloadAll` runs on a complete 9-slot ResultSet, it
produces an archive with a single top-level folder named for the mode
(`9_grid_images` / `9_grid_gifs`) containing exactly 9 files named
`slice_1.<ext>` … `slice_9.<ext>`, with `ext = png` in image mode and
`ext = gif` in video mode. -/
theorem archive_contents_correct (mode : AppMode)
    (results : List (Option SliceResult))
    (h9 : results.length = 9) (hc : ∀ o ∈ results, o.isSome = true) :
    ∃ ar, handleDownloadAll mode results = some ar ∧
      ar.folderName = folderNameOf mode ∧
      (mode = AppMode.IMAGE → ar.folderName = "9_grid_images" ∧ extOf mode = "png") ∧
      (mode = AppMode.VIDEO → ar.folderName = "9_grid_gifs" ∧ extOf mode = "gif") ∧
      ar.files.length = 9 ∧
      (ar.files.map fun zf => zf.name) =
        (List.range 9).map fun i => "slice_" ++ toString (i + 1) ++ "." ++ extOf mode := by
  have hany : results.any (fun r => r.isNone) = false := by
    apply List.any_eq_false.mpr
    intro o ho
    have := hc o ho
    cases o with
    | some v => simp
    | none => simp at this
  rw [handleDownloadAll, if_neg (by rw [hany]; simp)]
  have hnames := zip_entry_names (extOf mode) results 0 hc
  rw [h9] at hnames
  refine ⟨_, rfl, rfl, ?_, ?_, ?_, ?_⟩
  · rintro rfl
    exact ⟨rfl, rfl⟩
  · rintro rfl
    exact ⟨rfl, rfl⟩
  · have hlen := congrArg List.length hnames
    simpa using hlen
  · rw [show results.enum = results.enumFrom 0 from rfl, hnames]
    apply List.map_congr_left
    intro j _
    simp

/-- Witness for C7: image mode on a fully successful ResultSet. -/
theorem archive_contents_correct_witness :
    ∃ ar, handleDownloadAll AppMode.IMAGE (List.replicate 9 (some okRes)) = some ar ∧
      ar.folderName = folderNameOf AppMode.IMAGE ∧
      (AppMode.IMAGE = AppMode.IMAGE →
        ar.folderName = "9_grid_images" ∧ extOf AppMode.IMAGE = "png") ∧
      (AppMode.IMAGE = AppMode.VIDEO →
        ar.folderName = "9_grid_gifs" ∧ extOf AppMode.IMAGE = "gif") ∧
      ar.files.length = 9 ∧
      (ar.files.map fun zf => zf.name) =
        (List.range 9).map fun i => "slice_" ++ toString (i + 1) ++ "." ++ extOf AppMode.IMAGE :=
  archive_contents_correct AppMode.IMAGE (List.replicate 9 (some okRes))
    (by simp) (fun o ho => by simp [List.eq_of_mem_replicate ho])

/-! ## Claim C6 -/

/-- If any seek among the times the loop would sample fails to complete within
the bounded wait, the capture loop rejects with the seek-timeout error. -/
theorem captureLoop_timeout (seekOk : ℚ → Bool) :
    ∀ (n : ℕ) (t step endT : ℚ),
    (∃ x ∈ sampleLoop n t step endT, seekOk x = false) →
    captureLoop seekOk n t step endT = Except.error SliceError.seekTimeout := by
  intro n
  induction n with
  | zero =>
    intro t step endT h
    simp [sampleLoop] at h
  | succ n ih =>
    intro t step endT h
    obtain ⟨x, hx, hbad⟩ := h
    rw [sampleLoop] at hx
    rw [captureLoop]
    by_cases hs : seekOk t = true
    · rw [if_pos hs]
      rcases List.mem_cons.mp hx with rfl | hx'
      · rw [hbad] at hs
        exact absurd hs (by simp)
      · by_cases hb : endT < t + step
        · rw [if_pos hb] at hx'
          simp at hx'
        · rw [if_neg hb] at hx'
          rw [if_neg hb, ih (t + step) step endT ⟨x, hx', hbad⟩]
          rfl
    · rw [if_neg hs]

/-- C6: the bounded wait on every video seek is the 5000 ms `setTimeout`; a
seek that does not complete within it makes `sliceVideoToGif` reject with the
timeout error `视频定位超时` naming the cause, and when slice `k`'s production
is such a failing video slice (all earlier slices succeeding), the entire run
aborts: failed status, slices after `k` never started, slots `k..8` empty, and
no archive built. -/
theorem seek_timeout_aborts_run (s : SliceSettings) (seekOk : ℚ → Bool) (w : ℕ)
    (st : AppState) (produce : ℕ → Except SliceError SliceResult)
    (r : ℕ → SliceResult) (enc : List ℚ → SliceResult) (k : ℕ)
    (hbad : ∃ x ∈ sampleTimes s, seekOk x = false)
    (hfile : st.file ≠ none)
    (hworker : st.mode = AppMode.VIDEO → st.workerBlobUrl ≠ none)
    (hk : k < 9)
    (hok : ∀ j, j < k → produce j = Except.ok (r j))
    (hkprod : produce k = (sliceVideoToGif true (some w) seekOk s).map enc) :
    seekTimeoutMs = 5000 ∧
    sliceVideoToGif true (some w) seekOk s = Except.error SliceError.seekTimeout ∧
    SliceError.message SliceError.seekTimeout = "视频定位超时" ∧
    produce k = Except.error SliceError.seekTimeout ∧
    (handleProcess st produce).1.status = Status.failed SliceError.seekTimeout ∧
    (sliceLoop produce 9 0 (List.replicate 9 none)).attempted = List.range (k + 1) ∧
    (∀ j, k ≤ j → j < 9 → (handleProcess st produce).1.results[j]? = some none) ∧
    handleDownloadAll st.mode (handleProcess st produce).1.results = none := by
  have hsv : sliceVideoToGif true (some w) seekOk s =
      Except.error SliceError.seekTimeout := by
    rw [sliceVideoToGif, if_neg (by simp)]
    rw [sampleTimes] at hbad
    exact captureLoop_timeout seekOk (totalFrames s) s.startTime (1 / s.fps) s.endTime hbad
  have hkerr : produce k = Except.error SliceError.seekTimeout := by
    rw [hkprod, hsv]
    rfl
  obtain ⟨_, h2, _, h4, _, h6, _, h8⟩ :=
    run_aborts st produce r SliceError.seekTimeout k hfile hworker hk hok hkerr
  exact ⟨rfl, hsv, rfl, hkerr, h6, h2, h4, h8⟩

/-- A seek oracle under which no seek ever completes in time. -/
def timeoutSeek : ℚ → Bool := fun _ => false

/-- A producer whose every slice is a video slice with timing-out seeks. -/
def timeoutProduce : ℕ → Except SliceError SliceResult :=
  fun _ => (sliceVideoToGif true (some 0) timeoutSeek testSettings).map fun _ => okRes

/-- Witness for C6: a video run whose first slice times out on its first seek. -/
theorem seek_timeout_aborts_run_witness :
    seekTimeoutMs = 5000 ∧
    sliceVideoToGif true (some 0) timeoutSeek testSettings =
      Except.error SliceError.seekTimeout ∧
    SliceError.message SliceError.seekTimeout = "视频定位超时" ∧
    timeoutProduce 0 = Except.error SliceError.seekTimeout ∧
    (handleProcess readyVideoState timeoutProduce).1.status =
      Status.failed SliceError.seekTimeout ∧
    (sliceLoop timeoutProduce 9 0 (List.replicate 9 none)).attempted = List.range (0 + 1) ∧
    (∀ j, 0 ≤ j → j < 9 →
      (handleProcess readyVideoState timeoutProduce).1.results[j]? = some none) ∧
    handleDownloadAll readyVideoState.mode
      (handleProcess readyVideoState timeoutProduce).1.results = none :=
  seek_timeout_aborts_run testSettings timeoutSeek 0 readyVideoState timeoutProduce
    (fun _ => okRes) (fun _ => okRes) 0
    (⟨testSettings.startTime, by
        rw [show sampleTimes testSettings =
            [0, 1/10, 2/10, 3/10, 4/10, 5/10, 6/10, 7/10, 8/10, 9/10] from by
          norm_num [sampleTimes, sampleLoop, totalFrames, duration, testSettings]]
        norm_num [testSettings], rfl⟩)
    (by simp [readyVideoState, initState])
    (by simp [readyVideoState, initState])
    (by norm_num)
    (fun j hj => absurd hj (by omega))
    rfl

end NineGrid
